import Mathlib

/-!
Shallow embedding of the core of `gerbi/models.py` (django-page-cms fork):
the page tree (an MPTT forest), the derived cache layer, save-time
normalization, publication status, slug/URL computation, template
resolution and book-order traversal.

Pages live in a forest of ordered rose trees; a page is addressed by its
position (the list of child indices from the forest roots down).  This
mirrors the MPTT nested-set encoding: document order of positions is the
`lft` order, sibling order is index order, and root nodes of distinct
trees are mutual siblings at the top level exactly as in django-mptt.
-/

/-- A page tree: node id plus ordered children (MPTT subtree). -/
inductive PTree : Type where
  | node : Nat → List PTree → PTree

/-- The whole forest: ordered list of root trees (ordered by tree id). -/
abbrev Forest := List PTree

/-- A position in the forest: child indices from the top. -/
abbrev Pos := List Nat

def PTree.nid : PTree → Nat
  | .node i _ => i

def PTree.children : PTree → List PTree
  | .node _ cs => cs

/-- Subtree of `t` at a relative path. -/
def subtreeIn : PTree → List Nat → Option PTree
  | t, [] => some t
  | t, i :: rest => (t.children[i]?).bind fun c => subtreeIn c rest

/-- Subtree of the forest at an absolute position (none for the empty path:
a page always has a position of length at least one). -/
def subtreeAt (f : Forest) : Pos → Option PTree
  | [] => none
  | i :: rest => (f[i]?).bind fun t => subtreeIn t rest

/-- Id of the page at a position. -/
def idAt (f : Forest) (p : Pos) : Option Nat :=
  (subtreeAt f p).map PTree.nid

/-- A position denotes an existing page. -/
def validPos (f : Forest) (p : Pos) : Prop :=
  (subtreeAt f p).isSome = true

instance (f : Forest) (p : Pos) : Decidable (validPos f p) := by
  unfold validPos; infer_instance

/-- The candidate position of the next sibling: bump the last index.
At top level this is the root of the next tree, as in django-mptt where
root nodes are mutual siblings ordered by tree id. -/
def bump : Pos → Pos
  | [] => []
  | [i] => [i + 1]
  | i :: rest => i :: bump rest

/-- The last index of a position (0 for the empty one). -/
def lastIdx : Pos → Nat
  | [] => 0
  | [i] => i
  | _ :: rest => lastIdx rest

/-- Positions of the proper ancestors, nearest first (ascending order):
the proper prefixes of `p`, longest first. -/
def ancestorPrefixes (p : Pos) : List Pos :=
  (List.range (p.length - 1)).map fun k => p.take (p.length - 1 - k)

mutual
/-- Relative positions of `t` and all its descendants, in document
(preorder, `lft`) order; `[]` stands for `t` itself. -/
def preorderT : PTree → List (List Nat)
  | .node _ cs => [] :: preorderL 0 cs

def preorderL : Nat → List PTree → List (List Nat)
  | _, [] => []
  | i, c :: cs => (preorderT c).map (fun q => i :: q) ++ preorderL (i + 1) cs
end

/-- Relative positions of the strict descendants of `t`, in document
order (what MPTT `get_descendants` returns). -/
def descPositions (t : PTree) : List (List Nat) :=
  (preorderT t).tail

/-! ## Settings and the page record

`gerbi.settings` values the model code reads, and the fields of `Page`
that the modelled operations touch.  Timestamps are integers (only their
order matters); nullable Django fields are `Option`s. -/

structure Settings where
  show_start_date : Bool
  show_end_date : Bool
  hide_root_slug : Bool
  default_template : String
  default_language : String
  languages : List String

/-- Page status constants (`Page.DRAFT` etc.). -/
def DRAFT : Nat := 0
def PUBLISHED : Nat := 1
def EXPIRED : Nat := 2
def HIDDEN : Nat := 3

/-- The `Page` fields the modelled methods read or write.  `id` is
`none` for a record not yet persisted; `status` is `none` when unset
(Python `None`). -/
structure PageRec where
  id : Option Nat
  status : Option Nat
  publication_date : Option Int
  publication_end_date : Option Int
  last_modification_date : Option Int
  freeze_date : Option Int
  template : Option String
  parent : Option Nat

/-- Python truthiness of the `status` field: `None` and `0` are falsy. -/
def statusFalsy : Option Nat → Bool
  | none => true
  | some s => s == 0

/-- Python truthiness of a nullable string field. -/
def strTruthy : Option String → Bool
  | none => false
  | some s => s != ""

/-! ## Shared cache keys and the invalidation protocol

The shared cache keys the model code derives from a page id, and the
lists of keys each write operation deletes, in deletion order. -/

inductive CKey : Type where
  | firstRoot : CKey
  | pageContent : Nat → CKey
  | pageUrl : Nat → CKey
  | brokenLink : Nat → CKey
deriving DecidableEq

/-- `Page.invalidate`: keys deleted, in order (`GERBI_FIRST_ROOT_ID`,
`gerbi_page_%d`, `GERBI_URL_KEY % id`). -/
def invalidate (pid : Nat) : List CKey :=
  [CKey.firstRoot, CKey.pageContent pid, CKey.pageUrl pid]

/-- `Page.save`: field normalization and the cache keys it deletes.
The broken-link flag is deleted directly in `save`, then `invalidate`
runs after the row is written.  `now` stands for `datetime.now()`. -/
def PageRec.save (s : Settings) (now : Int) (p : PageRec) : PageRec × List CKey :=
  let p1 := if statusFalsy p.status then { p with status := some DRAFT } else p
  let p2 :=
    if p1.publication_date = none ∧ p1.status = some PUBLISHED then
      { p1 with publication_date := some now }
    else p1
  let p3 :=
    if p2.status = some DRAFT then
      if s.show_start_date then
        match p2.publication_date with
        | some d => if d ≤ now then { p2 with publication_date := none } else p2
        | none => p2
      else { p2 with publication_date := none }
    else p2
  let p4 := { p3 with last_modification_date := some now }
  (p4, CKey.brokenLink (p.id.getD 0) :: invalidate (p.id.getD 0))

/-- `Content.save`: invalidates the owning page, then writes the row. -/
def Content.save (pageId : Nat) : List CKey :=
  invalidate pageId

/-- Guard of the first branch of `_get_calculated_status`:
`GERBI_SHOW_START_DATE and self.publication_date` set and in the future. -/
def startDateFuture (s : Settings) (now : Int) (p : PageRec) : Bool :=
  s.show_start_date &&
    match p.publication_date with
    | some d => now < d
    | none => false

/-- Guard of the second branch: `GERBI_SHOW_END_DATE` with an
end date already passed. -/
def endDatePassed (s : Settings) (now : Int) (p : PageRec) : Bool :=
  s.show_end_date &&
    match p.publication_end_date with
    | some d => d < now
    | none => false

/-- `Page._get_calculated_status`. -/
def calculated_status (s : Settings) (now : Int) (p : PageRec) : Option Nat :=
  if startDateFuture s now p then some DRAFT
  else if endDatePassed s now p then some EXPIRED
  else p.status

/-! ## First root and slug computation -/

/-- Modelled from the spec: `Page.objects.root()` (in `managers.py`, not
under `src/`) returns the root pages in the default ordering
`['tree_id', 'lft']`, so its first element is the root of the first
tree of the forest; `is_first_root` reads its first id. -/
def rootQuery (f : Forest) : Option Nat :=
  f.head?.map PTree.nid

/-- Database-consistent value of `Page.is_first_root`: the page has no
parent (a top-level position) and its id is the one the root query
returns. -/
def is_first_root_db (f : Forest) (p : Pos) : Bool :=
  p.length == 1 &&
    match idAt f p, rootQuery f with
    | some i, some r => i == r
    | _, _ => false

/-- State touched by `Page.is_first_root`: the shared
`GERBI_FIRST_ROOT_ID` cache entry and the per-instance `_is_first_root`
memo. -/
structure FRState where
  shared : Option Nat
  memo : Option Bool

/-- Shared-cache operations `is_first_root` can perform. -/
inductive FROp : Type where
  | get : FROp
  | set : Nat → FROp
deriving DecidableEq

/-- `Page.is_first_root`, with its cache effects made explicit: result,
new state, and the list of shared-cache operations performed. -/
def is_first_root (f : Forest) (parent : Option Nat) (pid : Nat) (st : FRState) :
    Bool × FRState × List FROp :=
  if parent.isSome then (false, st, [])
  else
    match st.memo with
    | some b => (b, st, [])
    | none =>
      match st.shared with
      | some fid => (fid == pid, { st with memo := some (fid == pid) }, [FROp.get])
      | none =>
        match rootQuery f with
        | some fid =>
            (pid == fid, { shared := some fid, memo := some (pid == fid) },
              [FROp.get, FROp.set fid])
        | none => (false, { st with memo := some false }, [FROp.get])

/-- The pure slug-path computation inside `Page.get_complete_slug`
(lines 276-282): start from the page's own slug — or the empty string
when root hiding applies to this very page — and prepend each
ancestor's slug, nearest ancestor first.  `slugOf` gives a page's slug
in the language at hand. -/
def complete_slug_value (s : Settings) (slugOf : Nat → String) (f : Forest)
    (p : Pos) (hideroot : Bool) : String :=
  let url0 :=
    if hideroot && s.hide_root_slug && is_first_root_db f p then ""
    else slugOf ((idAt f p).getD 0)
  (ancestorPrefixes p).foldl
    (fun url a => slugOf ((idAt f a).getD 0) ++ "/" ++ url) url0

/-- State touched by `get_complete_slug`: the per-instance
`_complete_slug` memo and the shared `GERBI_URL_KEY % id` entries, each
holding a language → path map. -/
structure SlugState where
  instMemo : Option (List (String × String))
  shared : Nat → Option (List (String × String))

/-- `Page.get_complete_slug` with its memoization: returns the path and
the updated state. -/
def get_complete_slug (s : Settings) (slugOf : Nat → String → String) (f : Forest)
    (p : Pos) (language : Option String) (hideroot : Bool) (st : SlugState) :
    String × SlugState :=
  let lang := language.getD s.default_language
  let instHit :=
    match st.instMemo with
    | some m => m.lookup lang
    | none => none
  match instHit with
  | some url => (url, st)
  | none =>
    let pid := (idAt f p).getD 0
    match st.shared pid with
    | some m =>
      match m.lookup lang with
      | some url => (url, { st with instMemo := some m })
      | none =>
        let url := complete_slug_value s (fun i => slugOf i lang) f p hideroot
        let m2 := (lang, url) :: m
        (url, { instMemo := some m2,
                shared := fun k => if k == pid then some m2 else st.shared k })
    | none =>
      let url := complete_slug_value s (fun i => slugOf i lang) f p hideroot
      let m2 := [(lang, url)]
      (url, { instMemo := some m2,
              shared := fun k => if k == pid then some m2 else st.shared k })

/-- `Page.get_template`: the page's own template when (truthily) set,
else the nearest ancestor's set template, else the default. -/
def get_template (s : Settings) (templOf : Nat → Option String) (f : Forest)
    (p : Pos) : String :=
  let own := (idAt f p).bind templOf
  if strTruthy own then own.getD s.default_template
  else
    match (ancestorPrefixes p).find? (fun a => strTruthy ((idAt f a).bind templOf)) with
    | some a => ((idAt f a).bind templOf).getD s.default_template
    | none => s.default_template

/-! ## Content store and `build_cache` -/

/-- One `Content` row. -/
structure ContentRec where
  page : Nat
  language : String
  ctype : String
  body : String
  creation_date : Int

/-- Does a row match (page, language, type), within the freeze cutoff? -/
def matchesKey (pid : Nat) (lang ctype : String) (freeze : Option Int)
    (c : ContentRec) : Bool :=
  c.page == pid && c.language == lang && c.ctype == ctype &&
    (match freeze with
     | some fz => decide (c.creation_date ≤ fz)
     | none => true)

/-- Modelled from the spec: `Content.objects.get_content_object` (in
`managers.py`, not under `src/`) — the revision with the maximal
creation timestamp among those matching (page, language, type), not
exceeding the freeze date when one is set. -/
def latestContent (db : List ContentRec) (pid : Nat) (lang ctype : String)
    (freeze : Option Int) : Option ContentRec :=
  (db.filter (matchesKey pid lang ctype freeze)).foldl
    (fun acc c =>
      match acc with
      | none => some c
      | some b => if b.creation_date < c.creation_date then some c else some b)
    none

/-- The distinct content types with a revision for (page, language)
within the freeze cutoff (the annotated `values('type')` query of
`build_cache`). -/
def typesFor (db : List ContentRec) (pid : Nat) (lang : String)
    (freeze : Option Int) : List String :=
  ((db.filter fun c =>
      c.page == pid && c.language == lang &&
        (match freeze with
         | some fz => decide (c.creation_date ≤ fz)
         | none => true)).map ContentRec.ctype).dedup

/-- The per-language slice of the page content cache:
type → (body, creation date) of the current revision. -/
def langEntry (db : List ContentRec) (pid : Nat) (freeze : Option Int)
    (lang : String) : List (String × String × Int) :=
  (typesFor db pid lang freeze).filterMap fun ct =>
    (latestContent db pid lang ct freeze).map fun c => (ct, c.body, c.creation_date)

/-- The per-page content cache: language → type → (body, creation date). -/
abbrev PageCache := List (String × List (String × String × Int))

/-- Shared-cache operations `build_cache` can perform on the
`gerbi_page_%d` key. -/
inductive BCOp : Type where
  | get : Nat → BCOp
  | set : Nat → BCOp
deriving DecidableEq

/-- Python truthiness of the per-instance `self.cache` value
(`None` and the empty dict are falsy). -/
def cacheTruthy : Option PageCache → Bool
  | none => false
  | some m => !m.isEmpty

/-- `Page.build_cache`: either the `ValueError` raised when the page
has no id (performed before any cache operation — the second component
lists the shared-cache operations actually executed), or the built
cache. -/
def build_cache (s : Settings) (db : List ContentRec)
    (shared : Nat → Option PageCache) (pg : PageRec)
    (instCache : Option PageCache) (language : Option String) :
    Except String PageCache × List BCOp :=
  match pg.id with
  | none => (Except.error "Page have no id", [])
  | some pid =>
    let fetchNeeded := !cacheTruthy instCache
    let c0 := if cacheTruthy instCache then instCache else shared pid
    let ops0 : List BCOp := if fetchNeeded then [BCOp.get pid] else []
    let c1 := c0.getD []
    let languages :=
      match language with
      | some l => [l]
      | none => s.languages
    let needed := languages.filter fun l => (c1.lookup l).isNone
    let c2 := needed.foldl (fun acc l => (l, langEntry db pid pg.freeze_date l) :: acc) c1
    let ops := if needed.isEmpty then ops0 else ops0 ++ [BCOp.set pid]
    (Except.ok c2, ops)

/-! ## Book traversal -/

/-- The ancestor walk at the end of `get_next_in_book`: first ancestor
in the list whose next-sibling position exists. -/
def nextFromAncestors (f : Forest) : List Pos → Option Pos
  | [] => none
  | a :: rest =>
    if (subtreeAt f (bump a)).isSome then some (bump a)
    else nextFromAncestors f rest

/-- `Page.get_next_in_book`: first child, else next sibling, else the
next sibling of the nearest ancestor, the tree root excluded
(`anc[0:cnt-1]` drops the farthest ancestor). -/
def get_next_in_book (f : Forest) (p : Pos) : Option Pos :=
  match subtreeAt f p with
  | none => none
  | some t =>
    if 0 < t.children.length then some (p ++ [0])
    else if (subtreeAt f (bump p)).isSome then some (bump p)
    else nextFromAncestors f (ancestorPrefixes p).dropLast

/-- `Page.get_prev_in_book`: for a non-root page, the last descendant
in document order of the previous sibling (or that sibling itself when
it has none), else the parent; `None` for a tree root. -/
def get_prev_in_book (f : Forest) (p : Pos) : Option Pos :=
  match subtreeAt f p with
  | none => none
  | some _ =>
    if p.length ≤ 1 then none
    else if 0 < lastIdx p then
      let sib := p.dropLast ++ [lastIdx p - 1]
      match subtreeAt f sib with
      | none => none
      | some ts =>
        match (descPositions ts).getLast? with
        | none => some sib
        | some d => some (sib ++ d)
    else some p.dropLast

/-! ## Concrete scenario data -/

/-- Settings with both date policies and root-slug hiding on. -/
def exSettingsOn : Settings := ⟨true, true, true, "default.html", "en", ["en", "fr"]⟩

/-- Same settings with root-slug hiding off. -/
def exSettingsOff : Settings := ⟨true, true, false, "default.html", "en", ["en", "fr"]⟩

/-- Slugs of the spec scenario: root "home", child "about", grandchild "team". -/
def exSlug : Nat → String
  | 1 => "home"
  | 2 => "about"
  | 3 => "team"
  | _ => ""

/-- The scenario tree: home → about → team. -/
def exForest : Forest := [PTree.node 1 [PTree.node 2 [PTree.node 3 []]]]

/-- Two independent single-node trees. -/
def twoTrees : Forest := [PTree.node 1 [], PTree.node 2 []]

/-- One tree, root with two children, the first child having a child. -/
def exForest2 : Forest := [PTree.node 1 [PTree.node 2 [PTree.node 3 []], PTree.node 4 []]]

/-- The root position of the tree a position belongs to. -/
def rootOf (p : Pos) : Pos := p.take 1

/-- A published page with id 7 (used as concrete input). -/
def exPageC2 : PageRec := ⟨some 7, some 1, some 0, none, none, none, none, none⟩

/-- A draft page with a past publication date (used as concrete input). -/
def exPageC5 : PageRec := ⟨some 4, some 0, some 3, none, none, none, none, none⟩

/-- Templates for the C8 witness: only the root has one. -/
def exTempl : Nat → Option String
  | 1 => some "root.html"
  | _ => none

/-! ## Claim theorems -/

/-- C2 (counterexample): saving a `Content` revision does **not** clear
the owning page's broken-link flag — `Content.save` only calls
`Page.invalidate`, which never deletes the `GERBI_BROKEN_LINK_KEY`
entry; here for the page with id 7. -/
theorem C2_counterexample : ¬ CKey.brokenLink 7 ∈ Content.save 7 := by decide

/-- C2 (amended): saving a page deletes exactly its broken-link flag,
the global first-root key, its content cache and its URL-path cache;
saving a content revision deletes exactly the owning page's content
cache, URL-path cache and the global first-root key — not the
broken-link flag.  No key of any other page is touched. -/
theorem C2_amended_invalidation (s : Settings) (now : Int) (p : PageRec) (pid : Nat)
    (h : p.id = some pid) (k : CKey) :
    (k ∈ (p.save s now).2 ↔
      (k = CKey.brokenLink pid ∨ k = CKey.firstRoot ∨
       k = CKey.pageContent pid ∨ k = CKey.pageUrl pid)) ∧
    (k ∈ Content.save pid ↔
      (k = CKey.firstRoot ∨ k = CKey.pageContent pid ∨ k = CKey.pageUrl pid)) := by
  have hid : ((p.save s now).2) =
      [CKey.brokenLink pid, CKey.firstRoot, CKey.pageContent pid, CKey.pageUrl pid] := by
    simp [PageRec.save, invalidate, h]
  rw [hid]
  constructor
  · simp [List.mem_cons]
  · simp [Content.save, invalidate, List.mem_cons]

/-- C2 (witness for the amended theorem). -/
theorem C2_amended_witness :
    exPageC2.id = some 7 ∧
    (CKey.brokenLink 7 ∈ (exPageC2.save exSettingsOn 5).2 ↔
      (CKey.brokenLink 7 = CKey.brokenLink 7 ∨ CKey.brokenLink 7 = CKey.firstRoot ∨
       CKey.brokenLink 7 = CKey.pageContent 7 ∨ CKey.brokenLink 7 = CKey.pageUrl 7)) :=
  ⟨rfl, (C2_amended_invalidation exSettingsOn 5 exPageC2 7 rfl (CKey.brokenLink 7)).1⟩

/-- C3 (code evaluation at the failing input): in a forest of two
independent trees, `get_next_in_book` on the childless root of the
first tree returns the root of the **second** tree — it crosses trees
through the MPTT root-level next sibling, contrary to the claim and to
the method's own docstring. -/
theorem C3_cross_tree_jump :
    get_next_in_book twoTrees [0] = some [1] ∧ rootOf [1] ≠ rootOf [0] := by decide

/-- C5: save-time normalization — an unset status defaults to Draft; a
Published page without a publication date gets one stamped `now`; a
Draft page's publication date is cleared when it is not in the future
under the show-start-date policy, and always cleared when that policy
is off; the last-modification timestamp is always stamped. -/
theorem C5_save_normalization (s : Settings) (now : Int) (p : PageRec) :
    (p.status = none → ((p.save s now).1).status = some DRAFT) ∧
    (p.status = some PUBLISHED → p.publication_date = none →
      ((p.save s now).1).publication_date = some now) ∧
    (p.status = some DRAFT → s.show_start_date = true →
      ∀ d, p.publication_date = some d → d ≤ now →
        ((p.save s now).1).publication_date = none) ∧
    (p.status = some DRAFT → s.show_start_date = false →
      ((p.save s now).1).publication_date = none) ∧
    ((p.save s now).1).last_modification_date = some now := by
  refine ⟨fun h => ?_, fun h hp => ?_, fun h hs d hd hle => ?_, fun h hs => ?_, ?_⟩
  · simp [PageRec.save, statusFalsy, h, DRAFT, PUBLISHED]
    split <;> (try split) <;> (try split) <;> rfl
  · simp [PageRec.save, statusFalsy, h, hp, DRAFT, PUBLISHED]
  · simp [PageRec.save, statusFalsy, h, hd, hle, hs, DRAFT, PUBLISHED]
  · simp [PageRec.save, statusFalsy, h, hs, DRAFT, PUBLISHED]
  · simp only [PageRec.save]

/-- C5 (witness): a Draft page with a past publication date under the
show-start-date policy gets its date cleared, and the
last-modification field stamped. -/
theorem C5_witness :
    exPageC5.status = some DRAFT ∧
    ((exPageC5.save exSettingsOn 10).1).publication_date = none :=
  ⟨rfl, (C5_save_normalization exSettingsOn 10 exPageC5).2.2.1 rfl rfl 3 rfl (by decide)⟩

/-- C6: when the show-start-date policy is on and the publication date
is set and in the future, the calculated status is Draft whatever the
stored status is. -/
theorem C6_future_start_forces_draft (s : Settings) (now : Int) (p : PageRec) (d : Int)
    (hs : s.show_start_date = true) (hd : p.publication_date = some d)
    (hf : now < d) : calculated_status s now p = some DRAFT := by
  simp [calculated_status, startDateFuture, hs, hd, hf]

/-- C6 (witness): a page stored as Hidden, with a future start date and
an already-passed end date, still computes as Draft. -/
theorem C6_witness :
    calculated_status exSettingsOn 10
      { id := some 5, status := some HIDDEN, publication_date := some 20,
        publication_end_date := some 1, last_modification_date := none,
        freeze_date := none, template := none, parent := none } = some DRAFT :=
  C6_future_start_forces_draft exSettingsOn 10 _ 20 rfl rfl (by decide)

/-- C7: `build_cache` on a page without an id fails with the
`ValueError` and performs no shared-cache operation; on a page with an
id it always succeeds (this error is never raised). -/
theorem C7_build_cache_id_guard (s : Settings) (db : List ContentRec)
    (shared : Nat → Option PageCache) (pg : PageRec) (inst : Option PageCache)
    (language : Option String) :
    (pg.id = none →
      build_cache s db shared pg inst language = (Except.error "Page have no id", [])) ∧
    (∀ i, pg.id = some i →
      ∃ c, (build_cache s db shared pg inst language).1 = Except.ok c) := by
  constructor
  · intro h
    simp [build_cache, h]
  · intro i h
    simp [build_cache, h]

/-- C7 (witness): the failure at a concrete id-less page, with the
empty operation list showing no cache access happened. -/
theorem C7_witness :
    build_cache exSettingsOn [] (fun _ => none)
      { id := none, status := none, publication_date := none,
        publication_end_date := none, last_modification_date := none,
        freeze_date := none, template := none, parent := none }
      none none = (Except.error "Page have no id", []) :=
  (C7_build_cache_id_guard exSettingsOn [] (fun _ => none) _ none none).1 rfl

/-- The id at the first top-level position is the root query's answer. -/
theorem idAt_zero (f : Forest) : idAt f [0] = rootQuery f := by
  cases f <;> simp [idAt, rootQuery, subtreeAt, subtreeIn]

/-- C10: `is_first_root` on a page with a parent answers `False` with no
shared-cache read or write and no state change; only a parentless page
can be identified as first root, and any id it records in the cache is
the root query's answer — the id of the page at a top-level (hence
parentless) position. -/
theorem C10_first_root_parent_guard (f : Forest) (parent : Option Nat) (pid : Nat)
    (st : FRState) :
    (parent.isSome = true → is_first_root f parent pid st = (false, st, [])) ∧
    ((is_first_root f parent pid st).1 = true → parent = none) ∧
    (∀ v, FROp.set v ∈ (is_first_root f parent pid st).2.2 → idAt f [0] = some v) := by
  refine ⟨fun h => ?_, fun h => ?_, fun v hv => ?_⟩
  · simp [is_first_root, h]
  · cases parent with
    | none => rfl
    | some q => simp [is_first_root] at h
  · rw [idAt_zero]
    cases parent with
    | some q => simp [is_first_root] at hv
    | none =>
      cases hm : st.memo with
      | some b => simp [is_first_root, hm] at hv
      | none =>
        cases hsh : st.shared with
        | some fid => simp [is_first_root, hm, hsh] at hv
        | none =>
          cases hr : rootQuery f with
          | none => simp [is_first_root, hm, hsh, hr] at hv
          | some fid =>
            simp [is_first_root, hm, hsh, hr] at hv
            simp [hr, hv]

/-- C10 (witness): a page with a parent, on an empty cache state. -/
theorem C10_witness :
    (some 9 : Option Nat).isSome = true ∧
    is_first_root exForest (some 9) 3 ⟨none, none⟩ = (false, ⟨none, none⟩, []) :=
  ⟨rfl, (C10_first_root_parent_guard exForest (some 9) 3 ⟨none, none⟩).1 rfl⟩

/-- `find?` returns the first element satisfying the predicate. -/
theorem find?_of_decomp {α : Type} (q : α → Bool) (l1 l2 : List α) (a : α)
    (h1 : ∀ b ∈ l1, q b = false) (h2 : q a = true) :
    (l1 ++ a :: l2).find? q = some a := by
  induction l1 with
  | nil => simpa using List.find?_cons_of_pos l2 h2
  | cons x xs ih =>
    have hx : q x = false := h1 x (by simp)
    rw [List.cons_append, List.find?_cons_of_neg _ (by simp [hx])]
    exact ih fun b hb => h1 b (by simp [hb])

/-- C8: the resolved template is the page's own when truthily set, else
the nearest ancestor's set one, else the global default. -/
theorem C8_template_resolution (s : Settings) (templOf : Nat → Option String)
    (f : Forest) (p : Pos) :
    (∀ t, (idAt f p).bind templOf = some t → t ≠ "" →
      get_template s templOf f p = t) ∧
    (strTruthy ((idAt f p).bind templOf) = false →
      ∀ l1 a l2, ancestorPrefixes p = l1 ++ a :: l2 →
        (∀ b ∈ l1, strTruthy ((idAt f b).bind templOf) = false) →
        ∀ t, (idAt f a).bind templOf = some t → t ≠ "" →
          get_template s templOf f p = t) ∧
    (strTruthy ((idAt f p).bind templOf) = false →
      (∀ a ∈ ancestorPrefixes p, strTruthy ((idAt f a).bind templOf) = false) →
      get_template s templOf f p = s.default_template) := by
  refine ⟨fun t h ht => ?_, fun hown l1 a l2 hd hl1 t ha ht => ?_, fun hown hall => ?_⟩
  · simp [get_template, h, strTruthy, ht]
  · have hfind : (ancestorPrefixes p).find?
        (fun a => strTruthy ((idAt f a).bind templOf)) = some a := by
      rw [hd]
      exact find?_of_decomp _ l1 l2 a hl1 (by simp [ha, strTruthy, ht])
    simp [get_template, hown, hfind, ha]
  · have hfind : (ancestorPrefixes p).find?
        (fun a => strTruthy ((idAt f a).bind templOf)) = none :=
      List.find?_eq_none.mpr fun a ha => by simp [hall a ha]
    simp [get_template, hown, hfind]

/-- C8 (witness): the grandchild of the scenario tree inherits the
root's template through the ancestor walk. -/
theorem C8_witness :
    get_template exSettingsOn exTempl exForest [0, 0, 0] = "root.html" :=
  (C8_template_resolution exSettingsOn exTempl exForest [0, 0, 0]).2.1
    (by decide) [[0, 0]] [0] [] (by decide) (by decide) "root.html" (by decide)
    (by decide)

/-- C9: `get_complete_slug` consults `hideroot` only on a cache miss — a
second call for the same language returns the memoized value and leaves
the state unchanged, whatever `hideroot` it passes (so a
`hideroot = false` call can return the root-hidden path a previous
`hideroot = true` call computed and cached). -/
theorem C9_memo_ignores_hideroot (s : Settings) (slugOf : Nat → String → String)
    (f : Forest) (p : Pos) (language : Option String) (hr1 hr2 : Bool) :
    get_complete_slug s slugOf f p language hr2
        (get_complete_slug s slugOf f p language hr1 ⟨none, fun _ => none⟩).2
      = ((get_complete_slug s slugOf f p language hr1 ⟨none, fun _ => none⟩).1,
         (get_complete_slug s slugOf f p language hr1 ⟨none, fun _ => none⟩).2) := by
  simp [get_complete_slug, List.lookup]

/-- The ancestor walk returns the first listed ancestor whose
next-sibling position exists. -/
theorem nextFromAncestors_of_decomp (f : Forest) (l1 l2 : List Pos) (a : Pos)
    (h1 : ∀ b ∈ l1, ¬ validPos f (bump b)) (h2 : validPos f (bump a)) :
    nextFromAncestors f (l1 ++ a :: l2) = some (bump a) := by
  induction l1 with
  | nil =>
    have h2x : (subtreeAt f (bump a)).isSome = true := h2
    simp [nextFromAncestors, h2x]
  | cons x xs ih =>
    have hx : (subtreeAt f (bump x)).isSome = false := by
      simpa [validPos] using h1 x (by simp)
    simp only [List.cons_append, nextFromAncestors, hx]
    simp only [Bool.false_eq_true, if_false]
    exact ih fun b hb => h1 b (by simp [hb])

/-- The ancestor walk yields nothing when no listed ancestor has a
next sibling. -/
theorem nextFromAncestors_eq_none (f : Forest) (l : List Pos)
    (h : ∀ a ∈ l, ¬ validPos f (bump a)) : nextFromAncestors f l = none := by
  induction l with
  | nil => rfl
  | cons x xs ih =>
    have hx : (subtreeAt f (bump x)).isSome = false := by
      simpa [validPos] using h x (by simp)
    simp only [nextFromAncestors, hx, Bool.false_eq_true, if_false]
    exact ih fun a ha => h a (by simp [ha])

/-- C4: `get_next_in_book` returns the first child when there are
children; else the next sibling when its position exists; else the
next sibling of the first ancestor having one, walking nearest to
farthest with the tree root excluded; else nothing. -/
theorem C4_next_in_book_cases (f : Forest) (p : Pos) (t : PTree)
    (h : subtreeAt f p = some t) :
    (t.children ≠ [] → get_next_in_book f p = some (p ++ [0])) ∧
    (t.children = [] → validPos f (bump p) → get_next_in_book f p = some (bump p)) ∧
    (t.children = [] → ¬ validPos f (bump p) →
      ∀ l1 a l2, (ancestorPrefixes p).dropLast = l1 ++ a :: l2 →
        (∀ b ∈ l1, ¬ validPos f (bump b)) → validPos f (bump a) →
        get_next_in_book f p = some (bump a)) ∧
    (t.children = [] → ¬ validPos f (bump p) →
      (∀ a ∈ (ancestorPrefixes p).dropLast, ¬ validPos f (bump a)) →
      get_next_in_book f p = none) := by
  refine ⟨fun hc => ?_, fun hc hv => ?_, fun hc hv l1 a l2 hd hl1 ha => ?_,
    fun hc hv hall => ?_⟩
  · have hlen : 0 < t.children.length := by
      cases htc : t.children with
      | nil => exact absurd htc hc
      | cons _ _ => simp [htc]
    simp [get_next_in_book, h, hlen]
  · have hb : (subtreeAt f (bump p)).isSome = true := hv
    simp [get_next_in_book, h, hc, hb]
  · have hb : (subtreeAt f (bump p)).isSome = false := by simpa [validPos] using hv
    simp only [get_next_in_book, h, hc, List.length_nil, lt_self_iff_false, if_false,
      hb, Bool.false_eq_true, hd]
    exact nextFromAncestors_of_decomp f l1 l2 a hl1 ha
  · have hb : (subtreeAt f (bump p)).isSome = false := by simpa [validPos] using hv
    simp only [get_next_in_book, h, hc, List.length_nil, lt_self_iff_false, if_false,
      hb, Bool.false_eq_true]
    exact nextFromAncestors_eq_none f _ hall

/-- C4 (witness): in the two-children tree, the next page after the
leaf grandchild is its parent's next sibling. -/
theorem C4_witness : get_next_in_book exForest2 [0, 0, 0] = some [0, 1] :=
  (C4_next_in_book_cases exForest2 [0, 0, 0] (PTree.node 3 []) rfl).2.2.1 rfl
    (by decide) [] [0, 0] [] (by decide) (by simp) (by decide)

/-- Prepending slugs distributes over a suffix of the accumulator. -/
theorem foldl_slug_append (g : Pos → String) (l : List Pos) (v : String) :
    ∀ u : String,
      l.foldl (fun url a => g a ++ "/" ++ url) (u ++ v)
        = l.foldl (fun url a => g a ++ "/" ++ url) u ++ v := by
  induction l with
  | nil => intro u; rfl
  | cons a l ih =>
    intro u
    simp only [List.foldl_cons]
    rw [← String.append_assoc (g a ++ "/") u v]
    exact ih (g a ++ "/" ++ u)

/-- Appending one child step to a position prepends the position itself
to the ancestor list. -/
theorem ancestorPrefixes_append (q : Pos) (j : Nat) (hq : q ≠ []) :
    ancestorPrefixes (q ++ [j]) = q :: ancestorPrefixes q := by
  obtain ⟨m, hm⟩ : ∃ m, q.length = m + 1 := by
    cases hq2 : q with
    | nil => exact absurd hq2 hq
    | cons x xs => exact ⟨xs.length, by simp⟩
  have htake : ∀ k : Nat, (q ++ [j]).take (q.length - k) = q.take (q.length - k) := by
    intro k
    rw [List.take_append_eq_append_take]
    have h0 : q.length - k - q.length = 0 := by omega
    simp [h0]
  have h1 : ancestorPrefixes (q ++ [j])
      = (List.range q.length).map fun k => q.take (q.length - k) := by
    simp only [ancestorPrefixes, List.length_append, List.length_cons, List.length_nil]
    have hl : q.length + (0 + 1) - 1 = q.length := by omega
    rw [hl]
    exact List.map_congr_left fun k _ => htake k
  rw [h1, hm, List.range_succ_eq_map, List.map_cons, List.map_map]
  congr 1
  · have hz : m + 1 - 0 = q.length := by omega
    rw [hz, List.take_length]
  · simp only [ancestorPrefixes, hm]
    have hm1 : m + 1 - 1 = m := by omega
    rw [hm1]
    refine List.map_congr_left fun k _ => ?_
    simp only [Function.comp]
    congr 1
    omega

/-- C1 (counterexample): in the scenario tree home → about → team with
root-slug hiding enabled, the complete slug of the grandchild is
"home/about/team", not the claimed "about/team" — the hiding branch
only fires when the page itself is the first root. -/
theorem C1_counterexample :
    complete_slug_value exSettingsOn exSlug exForest [0, 0, 0] true
      = "home/about/team" ∧
    complete_slug_value exSettingsOn exSlug exForest [0, 0, 0] true
      ≠ "about/team" := by
  constructor <;> decide

/-- C1 (amended): the complete slug concatenates the ancestors' slugs,
root first, then the page's own slug, with "/"; the root-slug-hiding
policy only empties the slug of the canonical first root itself
(descendants keep the root segment whether the policy is on or off).
Scenario: `complete_slug(B)` is "home/about/team" with hiding both
enabled and disabled; `complete_slug(R)` is "" with hiding enabled
and "home" with it disabled. -/
theorem C1_amended_slug_path :
    complete_slug_value exSettingsOn exSlug exForest [0, 0, 0] true
      = "home/about/team" ∧
    complete_slug_value exSettingsOff exSlug exForest [0, 0, 0] true
      = "home/about/team" ∧
    complete_slug_value exSettingsOn exSlug exForest [0] true = "" ∧
    complete_slug_value exSettingsOff exSlug exForest [0] true = "home" ∧
    (∀ (s : Settings) (g : Nat → String) (f : Forest) (q : Pos) (j : Nat) (hr : Bool),
      q ≠ [] →
      complete_slug_value s g f (q ++ [j]) hr
        = complete_slug_value s g f q false ++ "/" ++ g ((idAt f (q ++ [j])).getD 0)) ∧
    (∀ (s : Settings) (g : Nat → String) (f : Forest) (p : Pos),
      s.hide_root_slug = true → is_first_root_db f p = true →
      complete_slug_value s g f p true = "") := by
  refine ⟨by decide, by decide, by decide, by decide, ?_, ?_⟩
  · intro s g f q j hr hq
    have hlen : (q ++ [j]).length = q.length + 1 := by simp
    have hq1 : 0 < q.length := List.length_pos.mpr hq
    have hfr : is_first_root_db f (q ++ [j]) = false := by
      have hne : ((q ++ [j]).length == 1) = false := by
        rw [hlen]
        exact beq_eq_false_iff_ne.mpr (by omega)
      unfold is_first_root_db
      rw [hne, Bool.false_and]
    simp only [complete_slug_value, hfr, Bool.and_false, Bool.false_and,
      Bool.false_eq_true, if_false]
    rw [ancestorPrefixes_append q j hq, List.foldl_cons,
      String.append_assoc (g ((idAt f q).getD 0)) "/"
        (g ((idAt f (q ++ [j])).getD 0)),
      foldl_slug_append (fun a => g ((idAt f a).getD 0)) (ancestorPrefixes q)
        ("/" ++ g ((idAt f (q ++ [j])).getD 0)) (g ((idAt f q).getD 0)),
      ← String.append_assoc]
  · intro s g f p hhide hfr
    have hlen : p.length = 1 := by
      have h1 := (Bool.and_eq_true _ _).mp hfr
      simpa using h1.1
    have hanc : ancestorPrefixes p = [] := by
      simp [ancestorPrefixes, hlen]
    simp [complete_slug_value, hfr, hhide, hanc]

/-- C1 (witness for the amended theorem): the compositional clause at
the scenario grandchild. -/
theorem C1_amended_witness :
    (([0, 0] : Pos) ≠ []) ∧
    complete_slug_value exSettingsOn exSlug exForest ([0, 0] ++ [0]) true
      = complete_slug_value exSettingsOn exSlug exForest [0, 0] false ++ "/"
        ++ exSlug ((idAt exForest ([0, 0] ++ [0])).getD 0) :=
  ⟨by decide, C1_amended_slug_path.2.2.2.2.1 exSettingsOn exSlug exForest
    [0, 0] 0 true (by decide)⟩
